import Mathlib

/-!
Shallow embedding of the Solana-Vote program (src/src/lib.rs).

The Rust `HashMap` fields are modelled as association lists with
first-occurrence lookup, in-place replacement on insert of a present key,
and removal of the first occurrence — the observable behaviour of a map.
Rust `&mut self` methods returning `Result<T, ProgramError>` are modelled
as functions `State → ... → Except ProgramError T × State`, where the
returned state reflects exactly the mutations the Rust method performs
before returning (error paths in the source return before mutating,
except `remove_allowed_voter`, which is translated with its
remove-then-check order intact).
-/

section MapModel

variable {α β : Type} [DecidableEq α]

/-- Lookup of the first binding of a key in an association list
(model of `HashMap::get`). -/
def mapLookup (k : α) : List (α × β) → Option β
  | [] => none
  | (k', v) :: m => if k' = k then some v else mapLookup k m

/-- Insert a binding, replacing the first binding of the key if present,
appending otherwise (model of `HashMap::insert` / `entry().or_insert`). -/
def mapInsert (k : α) (v : β) : List (α × β) → List (α × β)
  | [] => [(k, v)]
  | (k', v') :: m => if k' = k then (k, v) :: m else (k', v') :: mapInsert k v m

/-- Remove the first binding of a key (model of `HashMap::remove`). -/
def mapRemove (k : α) : List (α × β) → List (α × β)
  | [] => []
  | (k', v') :: m => if k' = k then m else (k', v') :: mapRemove k m

/-- Key membership (model of `HashMap::contains_key`). -/
def mapContains (k : α) (m : List (α × β)) : Bool :=
  (mapLookup k m).isSome

end MapModel

/-- Identities (`solana_program::pubkey::Pubkey`), abstracted to `Nat`. -/
abbrev Pubkey := Nat

/-- The error type of `solana_program::program_error::ProgramError`, restricted
to a few of its variants; the program only ever constructs `invalidArgument`. -/
inductive ProgramError where
  | invalidArgument
  | invalidInstructionData
  | invalidAccountData
  deriving DecidableEq, Repr

/-- Rust `struct VoterInfo` (lib.rs:6-10). -/
structure VoterInfo where
  votes_left : Nat
  delegate : Option Pubkey
  deriving DecidableEq, Repr

/-- Rust `struct Vote` (lib.rs:12-22). `votes` is the tally keyed by option text,
`allowed_voters` the roster. -/
structure Vote where
  id : Nat
  title : String
  options : List String
  votes : List (String × Nat)
  creator : Pubkey
  allowed_voters : List (Pubkey × VoterInfo)
  is_close_vote_results : Bool
  is_vote_open : Bool
  deriving DecidableEq, Repr

/-- Rust `Vote::get_options` (lib.rs:26-28). -/
def Vote.get_options (v : Vote) : List String :=
  v.options

/-- Rust `Vote::is_voter_allowed` (lib.rs:69-71). -/
def Vote.is_voter_allowed (v : Vote) (voter : Pubkey) : Bool :=
  mapContains voter v.allowed_voters

/-- Rust `Vote::add_allowed_voter` (lib.rs:30-48). -/
def Vote.add_allowed_voter (v : Vote) (voter : Pubkey) (caller : Pubkey) :
    Except ProgramError Unit × Vote :=
  if caller ≠ v.creator then
    (.error .invalidArgument, v)
  else if !v.is_vote_open then
    (.error .invalidArgument, v)
  else
    let new_voter : VoterInfo := { votes_left := 1, delegate := none }
    (.ok (), { v with allowed_voters := mapInsert voter new_voter v.allowed_voters })

/-- Rust `Vote::remove_allowed_voter` (lib.rs:50-67); the source calls
`HashMap::remove` and then branches on whether a value was removed, so the
state carries the removal in both branches. -/
def Vote.remove_allowed_voter (v : Vote) (voter : Pubkey) (caller : Pubkey) :
    Except ProgramError Unit × Vote :=
  if caller ≠ v.creator then
    (.error .invalidArgument, v)
  else if !v.is_vote_open then
    (.error .invalidArgument, v)
  else
    let removed := mapLookup voter v.allowed_voters
    let v' := { v with allowed_voters := mapRemove voter v.allowed_voters }
    if removed.isSome then (.ok (), v') else (.error .invalidArgument, v')

/-- Rust `Vote::vote` (lib.rs:73-107). -/
def Vote.vote (v : Vote) (voter : Pubkey) (option_index : Nat) :
    Except ProgramError Unit × Vote :=
  if !(v.is_voter_allowed voter) then
    (.error .invalidArgument, v)
  else if !v.is_vote_open then
    (.error .invalidArgument, v)
  else
    match mapLookup voter v.allowed_voters with
    | some voter_info =>
        if voter_info.votes_left ≤ 0 then
          (.error .invalidArgument, v)
        else if v.options.length ≤ option_index then
          (.error .invalidArgument, v)
        else
          let option_key := v.options.getD option_index ""
          let count := (mapLookup option_key v.votes).getD 0
          (.ok (), { v with
            votes := mapInsert option_key (count + 1) v.votes,
            allowed_voters :=
              mapInsert voter { voter_info with votes_left := voter_info.votes_left - 1 }
                v.allowed_voters })
    | none => (.error .invalidArgument, v)

/-- Rust `Vote::delegate_vote` (lib.rs:109-142). The source clones the delegator's
entry, increments the delegate's entry in the map (`entry().or_insert` then
`+= 1`), and finally re-inserts the updated clone for the delegator — in that
order, which matters when `delegate == delegator`. -/
def Vote.delegate_vote (v : Vote) (delegate : Pubkey) (delegator : Pubkey) :
    Except ProgramError Unit × Vote :=
  match mapLookup delegator v.allowed_voters with
  | some voter_info =>
      if !v.is_vote_open then
        (.error .invalidArgument, v)
      else if voter_info.votes_left > 0 then
        let updated_voter_info := { voter_info with votes_left := voter_info.votes_left - 1 }
        let entry := (mapLookup delegate v.allowed_voters).getD
          { votes_left := 0, delegate := none }
        let roster1 :=
          mapInsert delegate { entry with votes_left := entry.votes_left + 1 } v.allowed_voters
        (.ok (), { v with
          allowed_voters :=
            mapInsert delegator { updated_voter_info with delegate := some delegate } roster1 })
      else (.error .invalidArgument, v)
  | none => (.error .invalidArgument, v)

/-- Rust `struct Voting` (lib.rs:145-148): the registry. `current_id` is the next
ballot id (`u32` in the source; id-counter overflow is the one fatal condition
the program does not handle, so the counter is modelled as `Nat`). -/
structure Voting where
  votes : List (Nat × Vote)
  current_id : Nat
  deriving DecidableEq, Repr

/-- Rust `Voting::create_vote` (lib.rs:152-174). The account list is modelled by
the list of its `key` fields, the only part the program reads. -/
def Voting.create_vote (s : Voting) (title : String) (options : List String)
    (is_close_vote_results : Bool) (accounts : List Pubkey) :
    Except ProgramError Nat × Voting :=
  match accounts with
  | [] => (.error .invalidArgument, s)
  | creator :: _ =>
      let vote : Vote := {
        id := s.current_id
        title := title
        options := options
        votes := []
        creator := creator
        allowed_voters := []
        is_close_vote_results := is_close_vote_results
        is_vote_open := true }
      (.ok s.current_id,
        { votes := mapInsert s.current_id vote s.votes, current_id := s.current_id + 1 })

/-- Rust `Voting::vote` (lib.rs:176-193). -/
def Voting.vote (s : Voting) (vote_id : Nat) (accounts : List Pubkey)
    (option_index : Nat) : Except ProgramError Unit × Voting :=
  match mapLookup vote_id s.votes with
  | none => (.error .invalidArgument, s)
  | some v =>
      match accounts with
      | [] => (.error .invalidArgument, s)
      | voter :: _ =>
          let r := v.vote voter option_index
          (r.1, { s with votes := mapInsert vote_id r.2 s.votes })

/-- Rust `Voting::close_vote` (lib.rs:195-211). -/
def Voting.close_vote (s : Voting) (vote_id : Nat) (accounts : List Pubkey) :
    Except ProgramError Unit × Voting :=
  match accounts with
  | [] => (.error .invalidArgument, s)
  | caller :: _ =>
      match mapLookup vote_id s.votes with
      | some v =>
          if v.creator ≠ caller then
            (.error .invalidArgument, s)
          else
            (.ok (),
              { s with votes := mapInsert vote_id { v with is_vote_open := false } s.votes })
      | none => (.error .invalidArgument, s)

/-- Rust `Voting::get_results` (lib.rs:213-233); `&self`, returns a clone of the
tally. -/
def Voting.get_results (s : Voting) (vote_id : Nat) (accounts : List Pubkey) :
    Except ProgramError (List (String × Nat)) :=
  match accounts with
  | [] => .error .invalidArgument
  | caller :: _ =>
      match mapLookup vote_id s.votes with
      | none => .error .invalidArgument
      | some v =>
          if v.is_close_vote_results then
            if !(v.is_voter_allowed caller) then .error .invalidArgument
            else .ok v.votes
          else .ok v.votes

/-- Rust `Voting::add_allowed_voter` (lib.rs:235-247). -/
def Voting.add_allowed_voter (s : Voting) (vote_id : Nat) (voter : Pubkey)
    (accounts : List Pubkey) : Except ProgramError Unit × Voting :=
  match accounts with
  | [] => (.error .invalidArgument, s)
  | caller :: _ =>
      match mapLookup vote_id s.votes with
      | some v =>
          let r := v.add_allowed_voter voter caller
          (r.1, { s with votes := mapInsert vote_id r.2 s.votes })
      | none => (.error .invalidArgument, s)

/-- Rust `Voting::remove_allowed_voter` (lib.rs:249-261). -/
def Voting.remove_allowed_voter (s : Voting) (vote_id : Nat) (voter : Pubkey)
    (accounts : List Pubkey) : Except ProgramError Unit × Voting :=
  match accounts with
  | [] => (.error .invalidArgument, s)
  | caller :: _ =>
      match mapLookup vote_id s.votes with
      | some v =>
          let r := v.remove_allowed_voter voter caller
          (r.1, { s with votes := mapInsert vote_id r.2 s.votes })
      | none => (.error .invalidArgument, s)

/-- Rust `Voting::is_voter_allowed` (lib.rs:263-269). -/
def Voting.is_voter_allowed (s : Voting) (vote_id : Nat) (voter : Pubkey) :
    Except ProgramError Bool :=
  match mapLookup vote_id s.votes with
  | some v => .ok (v.is_voter_allowed voter)
  | none => .error .invalidArgument

/-- Rust `Voting::delegate_vote` (lib.rs:271-283); the ballot is resolved before
the account list is inspected. -/
def Voting.delegate_vote (s : Voting) (vote_id : Nat) (delegate : Pubkey)
    (accounts : List Pubkey) : Except ProgramError Unit × Voting :=
  match mapLookup vote_id s.votes with
  | none => (.error .invalidArgument, s)
  | some v =>
      match accounts with
      | [] => (.error .invalidArgument, s)
      | delegator :: _ =>
          let r := v.delegate_vote delegate delegator
          (r.1, { s with votes := mapInsert vote_id r.2 s.votes })

/-- Rust `Voting::get_options` (lib.rs:285-291); reads only. -/
def Voting.get_options (s : Voting) (vote_id : Nat) :
    Except ProgramError (List String) :=
  match mapLookup vote_id s.votes with
  | some v => .ok v.get_options
  | none => .error .invalidArgument

/-! ### Operation traces

`VoteOp` ranges over the roster-and-tally mutating operations of a single
ballot; `RegOp` over the mutating entry points of the registry. A step applies
the operation and keeps the state the method returned (Rust mutates in place,
so the returned state is the ballot after the call whether or not it
succeeded). -/

/-- A mutating operation on one ballot. -/
inductive VoteOp where
  | enroll (voter : Pubkey) (caller : Pubkey)
  | cast (voter : Pubkey) (idx : Nat)
  | deleg (target : Pubkey) (delegator : Pubkey)
  | revoke (voter : Pubkey) (caller : Pubkey)

/-- One ballot step, also counting successful vote casts. -/
def voteStep (p : Vote × Nat) : VoteOp → Vote × Nat
  | .enroll voter caller => ((p.1.add_allowed_voter voter caller).2, p.2)
  | .cast voter idx =>
      let r := p.1.vote voter idx
      (r.2, match r.1 with | .ok _ => p.2 + 1 | .error _ => p.2)
  | .deleg t d => ((p.1.delegate_vote t d).2, p.2)
  | .revoke voter caller => ((p.1.remove_allowed_voter voter caller).2, p.2)

/-- Run a sequence of ballot operations. -/
def voteRun (p : Vote × Nat) (ops : List VoteOp) : Vote × Nat :=
  ops.foldl voteStep p

/-- Total remaining allowance over a roster. -/
def rosterSum (m : List (Pubkey × VoterInfo)) : Nat :=
  (m.map (fun p => p.2.votes_left)).sum

/-- Number of enrollment events in a trace. -/
def enrollCount : List VoteOp → Nat
  | [] => 0
  | .enroll _ _ :: ops => enrollCount ops + 1
  | _ :: ops => enrollCount ops

/-- A mutating operation on the registry. -/
inductive RegOp where
  | create (title : String) (options : List String) (closedResults : Bool)
      (accounts : List Pubkey)
  | castV (vote_id : Nat) (accounts : List Pubkey) (idx : Nat)
  | close (vote_id : Nat) (accounts : List Pubkey)
  | enroll (vote_id : Nat) (voter : Pubkey) (accounts : List Pubkey)
  | revoke (vote_id : Nat) (voter : Pubkey) (accounts : List Pubkey)
  | deleg (vote_id : Nat) (target : Pubkey) (accounts : List Pubkey)

/-- One registry step. -/
def regStep (s : Voting) : RegOp → Voting
  | .create t o b a => (s.create_vote t o b a).2
  | .castV vid a i => (s.vote vid a i).2
  | .close vid a => (s.close_vote vid a).2
  | .enroll vid voter a => (s.add_allowed_voter vid voter a).2
  | .revoke vid voter a => (s.remove_allowed_voter vid voter a).2
  | .deleg vid t a => (s.delegate_vote vid t a).2

/-- Run a sequence of registry operations. -/
def regRun (s : Voting) (ops : List RegOp) : Voting :=
  ops.foldl regStep s

/-- The registry with no ballots (the tests construct it with
`votes: HashMap::new(), current_id: 0`). -/
def initialVoting : Voting :=
  { votes := [], current_id := 0 }

/-- Every ballot key is below the id counter. -/
def keysBounded (s : Voting) : Prop :=
  ∀ p ∈ s.votes, p.1 < s.current_id

instance (s : Voting) : Decidable (keysBounded s) := by
  unfold keysBounded; infer_instance

/-- The ballot `vid` exists and is closed. -/
def ClosedBallot (s : Voting) (vid : Nat) : Prop :=
  ∃ v, mapLookup vid s.votes = some v ∧ v.is_vote_open = false

/-- Weight of one trace operation in the enrollment count. -/
def enrollWeight : VoteOp → Nat
  | .enroll _ _ => 1
  | _ => 0

/-- The key set of a registry is exactly the ids below the counter. -/
def keysComplete (s : Voting) : Prop :=
  ∀ k, (mapLookup k s.votes).isSome = true ↔ k < s.current_id

/-- A concrete open ballot with creator `0` and an empty roster, as
`create_vote` constructs it. -/
def sampleBallot : Vote :=
  { id := 0, title := "Test Vote", options := ["Option 1", "Option 2"], votes := [],
    creator := 0, allowed_voters := [], is_close_vote_results := false,
    is_vote_open := true }

/-- The ballot `sampleBallot` with voter `1` enrolled holding one vote. -/
def enrolledBallot : Vote :=
  { sampleBallot with
    allowed_voters := [(1, { votes_left := 1, delegate := none })] }

section MapLemmas

variable {α β : Type} [DecidableEq α]

theorem mapLookup_insert (k k' : α) (v : β) (m : List (α × β)) :
    mapLookup k' (mapInsert k v m) = if k = k' then some v else mapLookup k' m := by
  induction m with
  | nil => by_cases h : k = k' <;> simp [mapInsert, mapLookup, h]
  | cons hd tl ih =>
    obtain ⟨k₀, v₀⟩ := hd
    by_cases h0 : k₀ = k
    · subst h0
      by_cases h : k₀ = k' <;> simp [mapInsert, mapLookup, h]
    · by_cases h : k₀ = k'
      · subst h
        have : ¬ (k = k₀) := fun hh => h0 hh.symm
        simp [mapInsert, mapLookup, h0, this]
      · simp [mapInsert, mapLookup, h0, h, ih]

theorem mapLookup_insert_self (k : α) (v : β) (m : List (α × β)) :
    mapLookup k (mapInsert k v m) = some v := by
  simp [mapLookup_insert]

theorem mapLookup_insert_ne (k k' : α) (v : β) (m : List (α × β)) (h : k ≠ k') :
    mapLookup k' (mapInsert k v m) = mapLookup k' m := by
  simp [mapLookup_insert, h]

/-- Re-inserting the value a key already has leaves the list unchanged. -/
theorem mapInsert_lookup_self (k : α) (v : β) (m : List (α × β))
    (h : mapLookup k m = some v) : mapInsert k v m = m := by
  induction m with
  | nil => simp [mapLookup] at h
  | cons hd tl ih =>
    obtain ⟨k₀, v₀⟩ := hd
    by_cases h0 : k₀ = k
    · subst h0
      simp [mapLookup] at h
      simp [mapInsert, h]
    · simp [mapLookup, h0] at h
      simp [mapInsert, h0, ih h]

/-- Removing an absent key leaves the list unchanged. -/
theorem mapRemove_lookup_none (k : α) (m : List (α × β))
    (h : mapLookup k m = none) : mapRemove k m = m := by
  induction m with
  | nil => rfl
  | cons hd tl ih =>
    obtain ⟨k₀, v₀⟩ := hd
    by_cases h0 : k₀ = k
    · simp [mapLookup, h0] at h
    · simp [mapLookup, h0] at h
      simp [mapRemove, h0, ih h]

theorem mapLookup_mem {k : α} {v : β} {m : List (α × β)}
    (h : mapLookup k m = some v) : (k, v) ∈ m := by
  induction m with
  | nil => simp [mapLookup] at h
  | cons hd tl ih =>
    obtain ⟨k₀, v₀⟩ := hd
    by_cases h0 : k₀ = k
    · subst h0
      simp [mapLookup] at h
      simp [h]
    · simp [mapLookup, h0] at h
      exact List.mem_cons_of_mem _ (ih h)

theorem mem_mapInsert {k : α} {v : β} {m : List (α × β)} {p : α × β}
    (h : p ∈ mapInsert k v m) : p = (k, v) ∨ p ∈ m := by
  induction m with
  | nil => simpa [mapInsert] using h
  | cons hd tl ih =>
    obtain ⟨k₀, v₀⟩ := hd
    by_cases h0 : k₀ = k
    · subst h0
      rw [mapInsert, if_pos rfl] at h
      rcases List.mem_cons.mp h with h | h
      · exact Or.inl h
      · exact Or.inr (List.mem_cons_of_mem _ h)
    · rw [mapInsert, if_neg h0] at h
      rcases List.mem_cons.mp h with h | h
      · exact Or.inr (h ▸ List.mem_cons_self _ _)
      · rcases ih h with h' | h'
        · exact Or.inl h'
        · exact Or.inr (List.mem_cons_of_mem _ h')

theorem mapLookup_isSome_insert (k k' : α) (v : β) (m : List (α × β)) :
    (mapLookup k' (mapInsert k v m)).isSome =
      (k = k' || (mapLookup k' m).isSome) := by
  by_cases h : k = k' <;> simp [mapLookup_insert, h]

end MapLemmas


/-! ### Association-list sum lemmas -/

theorem rosterSum_insert_of_lookup (k : Pubkey) (nv : VoterInfo)
    (m : List (Pubkey × VoterInfo)) (old : VoterInfo)
    (h : mapLookup k m = some old) :
    rosterSum (mapInsert k nv m) + old.votes_left = rosterSum m + nv.votes_left := by
  induction m with
  | nil => simp [mapLookup] at h
  | cons hd tl ih =>
    obtain ⟨k₀, v₀⟩ := hd
    by_cases h0 : k₀ = k
    · subst h0
      simp [mapLookup] at h
      subst h
      simp [mapInsert, rosterSum]
      ring
    · simp [mapLookup, h0] at h
      have := ih h
      simp [mapInsert, h0, rosterSum] at this ⊢
      omega

theorem rosterSum_insert_of_none (k : Pubkey) (nv : VoterInfo)
    (m : List (Pubkey × VoterInfo)) (h : mapLookup k m = none) :
    rosterSum (mapInsert k nv m) = rosterSum m + nv.votes_left := by
  induction m with
  | nil => simp [mapInsert, rosterSum]
  | cons hd tl ih =>
    obtain ⟨k₀, v₀⟩ := hd
    by_cases h0 : k₀ = k
    · simp [mapLookup, h0] at h
    · simp [mapLookup, h0] at h
      have := ih h
      simp [mapInsert, h0, rosterSum] at this ⊢
      omega

theorem rosterSum_remove_of_lookup (k : Pubkey)
    (m : List (Pubkey × VoterInfo)) (old : VoterInfo)
    (h : mapLookup k m = some old) :
    rosterSum (mapRemove k m) + old.votes_left = rosterSum m := by
  induction m with
  | nil => simp [mapLookup] at h
  | cons hd tl ih =>
    obtain ⟨k₀, v₀⟩ := hd
    by_cases h0 : k₀ = k
    · subst h0
      simp [mapLookup] at h
      subst h
      simp [mapRemove, rosterSum]
      ring
    · simp [mapLookup, h0] at h
      have := ih h
      simp [mapRemove, h0, rosterSum] at this ⊢
      omega

/-! ### Error characterization: every failing call returns
`ProgramError::InvalidArgument` and the state it was given. -/

theorem Vote.add_allowed_voter_err (v : Vote) (voter caller : Pubkey)
    (e : ProgramError) (h : (v.add_allowed_voter voter caller).1 = .error e) :
    v.add_allowed_voter voter caller = (.error .invalidArgument, v) := by
  unfold Vote.add_allowed_voter at h ⊢
  by_cases h1 : caller ≠ v.creator
  · simp [h1]
  · by_cases h2 : (!v.is_vote_open) = true
    · simp [h1, h2]
    · simp [h1, h2] at h

theorem Vote.remove_allowed_voter_err (v : Vote) (voter caller : Pubkey)
    (e : ProgramError) (h : (v.remove_allowed_voter voter caller).1 = .error e) :
    v.remove_allowed_voter voter caller = (.error .invalidArgument, v) := by
  unfold Vote.remove_allowed_voter at h ⊢
  by_cases h1 : caller ≠ v.creator
  · simp [h1]
  · by_cases h2 : (!v.is_vote_open) = true
    · simp [h1, h2]
    · cases hl : mapLookup voter v.allowed_voters with
      | some info => simp [h1, h2, hl] at h
      | none =>
          simp [h1, h2, hl]
          rw [mapRemove_lookup_none voter v.allowed_voters hl]

theorem Vote.vote_err (v : Vote) (voter : Pubkey) (i : Nat)
    (e : ProgramError) (h : (v.vote voter i).1 = .error e) :
    v.vote voter i = (.error .invalidArgument, v) := by
  unfold Vote.vote at h ⊢
  by_cases h1 : (!v.is_voter_allowed voter) = true
  · simp [h1]
  · by_cases h2 : (!v.is_vote_open) = true
    · simp [h1, h2]
    · cases hl : mapLookup voter v.allowed_voters with
      | none => simp [h1, h2, hl]
      | some info =>
          by_cases h3 : info.votes_left ≤ 0
          · simp [h1, h2, hl, h3]
          · by_cases h4 : v.options.length ≤ i
            · simp [h1, h2, hl, h3, h4]
            · simp [h1, h2, hl, h3, h4] at h

theorem Vote.delegate_vote_err (v : Vote) (target delegator : Pubkey)
    (e : ProgramError) (h : (v.delegate_vote target delegator).1 = .error e) :
    v.delegate_vote target delegator = (.error .invalidArgument, v) := by
  unfold Vote.delegate_vote at h ⊢
  cases hl : mapLookup delegator v.allowed_voters with
  | none => simp [hl]
  | some info =>
      by_cases h2 : (!v.is_vote_open) = true
      · simp [hl, h2]
      · by_cases h3 : info.votes_left > 0
        · simp [hl, h2, h3] at h
        · simp [hl, h2, h3]

/-! ### Closed-ballot behaviour: on a closed ballot every mutating
ballot method fails and returns the ballot untouched. -/

theorem Vote.add_allowed_voter_closed (v : Vote) (voter caller : Pubkey)
    (hc : v.is_vote_open = false) :
    v.add_allowed_voter voter caller = (.error .invalidArgument, v) := by
  unfold Vote.add_allowed_voter
  by_cases h1 : caller ≠ v.creator
  · simp [h1]
  · simp [h1, hc]

theorem Vote.remove_allowed_voter_closed (v : Vote) (voter caller : Pubkey)
    (hc : v.is_vote_open = false) :
    v.remove_allowed_voter voter caller = (.error .invalidArgument, v) := by
  unfold Vote.remove_allowed_voter
  by_cases h1 : caller ≠ v.creator
  · simp [h1]
  · simp [h1, hc]

theorem Vote.vote_closed (v : Vote) (voter : Pubkey) (i : Nat)
    (hc : v.is_vote_open = false) :
    v.vote voter i = (.error .invalidArgument, v) := by
  unfold Vote.vote
  by_cases h1 : (!v.is_voter_allowed voter) = true
  · simp [h1]
  · cases hl : mapLookup voter v.allowed_voters with
    | none => simp [h1, hl, hc]
    | some info => simp [h1, hl, hc]

theorem Vote.delegate_vote_closed (v : Vote) (target delegator : Pubkey)
    (hc : v.is_vote_open = false) :
    v.delegate_vote target delegator = (.error .invalidArgument, v) := by
  unfold Vote.delegate_vote
  cases hl : mapLookup delegator v.allowed_voters with
  | none => simp [hl]
  | some info => simp [hl, hc]

theorem Voting.create_vote_error_eq (s : Voting) (t : String) (o : List String)
    (b : Bool) (a : List Pubkey) (e : ProgramError)
    (h : (s.create_vote t o b a).1 = .error e) :
    s.create_vote t o b a = (.error .invalidArgument, s) := by
  unfold Voting.create_vote at h ⊢
  cases a with
  | nil => rfl
  | cons c rest => simp at h

theorem Voting.vote_error_eq (s : Voting) (vid : Nat) (a : List Pubkey) (i : Nat)
    (e : ProgramError) (h : (s.vote vid a i).1 = .error e) :
    s.vote vid a i = (.error .invalidArgument, s) := by
  unfold Voting.vote at h ⊢
  cases hl : mapLookup vid s.votes with
  | none => rfl
  | some v =>
      cases a with
      | nil => rfl
      | cons voter rest =>
          rw [hl] at h
          simp only at h ⊢
          rw [Vote.vote_err v voter i e h]
          rw [mapInsert_lookup_self vid v s.votes hl]

theorem Voting.close_vote_error_eq (s : Voting) (vid : Nat) (a : List Pubkey)
    (e : ProgramError) (h : (s.close_vote vid a).1 = .error e) :
    s.close_vote vid a = (.error .invalidArgument, s) := by
  unfold Voting.close_vote at h ⊢
  cases a with
  | nil => rfl
  | cons caller rest =>
      cases hl : mapLookup vid s.votes with
      | none => rfl
      | some v =>
          rw [hl] at h
          by_cases hc : v.creator ≠ caller
          · simp [hc]
          · simp [hc] at h

theorem Voting.get_results_error_eq (s : Voting) (vid : Nat) (a : List Pubkey)
    (e : ProgramError) (h : s.get_results vid a = .error e) :
    s.get_results vid a = .error .invalidArgument := by
  unfold Voting.get_results at h ⊢
  cases a with
  | nil => rfl
  | cons caller rest =>
      cases hl : mapLookup vid s.votes with
      | none => rfl
      | some v =>
          rw [hl] at h
          by_cases hr : v.is_close_vote_results = true
          · by_cases hv : (!v.is_voter_allowed caller) = true
            · simp [hr, hv]
            · simp [hr, hv] at h
          · simp [hr] at h

theorem Voting.add_allowed_voter_error_eq (s : Voting) (vid : Nat) (voter : Pubkey)
    (a : List Pubkey) (e : ProgramError)
    (h : (s.add_allowed_voter vid voter a).1 = .error e) :
    s.add_allowed_voter vid voter a = (.error .invalidArgument, s) := by
  unfold Voting.add_allowed_voter at h ⊢
  cases a with
  | nil => rfl
  | cons caller rest =>
      cases hl : mapLookup vid s.votes with
      | none => rfl
      | some v =>
          rw [hl] at h
          simp only at h ⊢
          rw [Vote.add_allowed_voter_err v voter caller e h]
          rw [mapInsert_lookup_self vid v s.votes hl]

theorem Voting.remove_allowed_voter_error_eq (s : Voting) (vid : Nat) (voter : Pubkey)
    (a : List Pubkey) (e : ProgramError)
    (h : (s.remove_allowed_voter vid voter a).1 = .error e) :
    s.remove_allowed_voter vid voter a = (.error .invalidArgument, s) := by
  unfold Voting.remove_allowed_voter at h ⊢
  cases a with
  | nil => rfl
  | cons caller rest =>
      cases hl : mapLookup vid s.votes with
      | none => rfl
      | some v =>
          rw [hl] at h
          simp only at h ⊢
          rw [Vote.remove_allowed_voter_err v voter caller e h]
          rw [mapInsert_lookup_self vid v s.votes hl]

theorem Voting.is_voter_allowed_error_eq (s : Voting) (vid : Nat) (voter : Pubkey)
    (e : ProgramError) (h : s.is_voter_allowed vid voter = .error e) :
    s.is_voter_allowed vid voter = .error .invalidArgument := by
  unfold Voting.is_voter_allowed at h ⊢
  cases hl : mapLookup vid s.votes with
  | none => rfl
  | some v => rw [hl] at h; simp at h

theorem Voting.delegate_vote_error_eq (s : Voting) (vid : Nat) (target : Pubkey)
    (a : List Pubkey) (e : ProgramError)
    (h : (s.delegate_vote vid target a).1 = .error e) :
    s.delegate_vote vid target a = (.error .invalidArgument, s) := by
  unfold Voting.delegate_vote at h ⊢
  cases hl : mapLookup vid s.votes with
  | none => rfl
  | some v =>
      cases a with
      | nil => rfl
      | cons delegator rest =>
          rw [hl] at h
          simp only at h ⊢
          rw [Vote.delegate_vote_err v target delegator e h]
          rw [mapInsert_lookup_self vid v s.votes hl]

theorem Voting.get_options_error_eq (s : Voting) (vid : Nat)
    (e : ProgramError) (h : s.get_options vid = .error e) :
    s.get_options vid = .error .invalidArgument := by
  unfold Voting.get_options at h ⊢
  cases hl : mapLookup vid s.votes with
  | none => rfl
  | some v => rw [hl] at h; simp at h

theorem enrollCount_cons (op : VoteOp) (ops : List VoteOp) :
    enrollCount (op :: ops) = enrollWeight op + enrollCount ops := by
  cases op <;> simp [enrollCount, enrollWeight, Nat.add_comm]

/-- One step changes `roster allowance + casts` by at most the enrollment
weight of the operation. -/
theorem voteStep_measure (p : Vote × Nat) (op : VoteOp) :
    rosterSum (voteStep p op).1.allowed_voters + (voteStep p op).2 ≤
      rosterSum p.1.allowed_voters + p.2 + enrollWeight op := by
  obtain ⟨v, n⟩ := p
  cases op with
  | enroll voter caller =>
      simp only [voteStep, enrollWeight]
      unfold Vote.add_allowed_voter
      by_cases h1 : caller ≠ v.creator
      · simp [h1]
      · by_cases h2 : (!v.is_vote_open) = true
        · simp [h1, h2]
        · simp only [h1, h2, if_neg, if_false, ite_false]
          cases hl : mapLookup voter v.allowed_voters with
          | none =>
              have hs := rosterSum_insert_of_none voter
                { votes_left := 1, delegate := none } v.allowed_voters hl
              simp [h1, h2, hs]
              omega
          | some old =>
              have hs := rosterSum_insert_of_lookup voter
                { votes_left := 1, delegate := none } v.allowed_voters old hl
              simp only [h1, h2] at hs ⊢
              simp at hs ⊢
              omega
  | cast voter idx =>
      simp only [voteStep, enrollWeight]
      unfold Vote.vote
      by_cases h1 : (!v.is_voter_allowed voter) = true
      · simp [h1]
      · by_cases h2 : (!v.is_vote_open) = true
        · simp [h1, h2]
        · cases hl : mapLookup voter v.allowed_voters with
          | none => simp [h1, h2, hl]
          | some info =>
              by_cases h3 : info.votes_left ≤ 0
              · simp [h1, h2, hl, h3]
              · by_cases h4 : v.options.length ≤ idx
                · simp [h1, h2, hl, h3, h4]
                · have hs := rosterSum_insert_of_lookup voter
                    { info with votes_left := info.votes_left - 1 } v.allowed_voters info hl
                  simp [h1, h2, hl, h3, h4]
                  simp at hs
                  omega
  | deleg target delegator =>
      simp only [voteStep, enrollWeight]
      unfold Vote.delegate_vote
      cases hl : mapLookup delegator v.allowed_voters with
      | none => simp [hl]
      | some info =>
          by_cases h2 : (!v.is_vote_open) = true
          · simp [hl, h2]
          · by_cases h3 : info.votes_left > 0
            · cases hlt : mapLookup target v.allowed_voters with
              | some ed =>
                  have hs1 := rosterSum_insert_of_lookup target
                    { ed with votes_left := ed.votes_left + 1 } v.allowed_voters ed hlt
                  by_cases heq : target = delegator
                  · subst heq
                    rw [hl] at hlt
                    injection hlt with hlt'
                    subst hlt'
                    have hs2 := rosterSum_insert_of_lookup target
                      { votes_left := info.votes_left - 1, delegate := some target }
                      (mapInsert target { info with votes_left := info.votes_left + 1 }
                        v.allowed_voters)
                      { info with votes_left := info.votes_left + 1 }
                      (mapLookup_insert_self target _ v.allowed_voters)
                    simp [hl, h2, h3]
                    simp at hs1 hs2
                    omega
                  · have hld : mapLookup delegator
                        (mapInsert target { ed with votes_left := ed.votes_left + 1 }
                          v.allowed_voters) = some info := by
                      rw [mapLookup_insert_ne _ _ _ _ heq]
                      exact hl
                    have hs2 := rosterSum_insert_of_lookup delegator
                      { votes_left := info.votes_left - 1, delegate := some target }
                      (mapInsert target { ed with votes_left := ed.votes_left + 1 }
                        v.allowed_voters)
                      info hld
                    simp [hl, h2, h3, hlt]
                    simp at hs1 hs2
                    omega
              | none =>
                  have hne : target ≠ delegator := by
                    intro heq; rw [heq, hl] at hlt; exact Option.noConfusion hlt
                  have hs1 := rosterSum_insert_of_none target
                    { votes_left := 0 + 1, delegate := none } v.allowed_voters hlt
                  have hld : mapLookup delegator
                      (mapInsert target { votes_left := 0 + 1, delegate := none }
                        v.allowed_voters) = some info := by
                    rw [mapLookup_insert_ne _ _ _ _ hne]
                    exact hl
                  have hs2 := rosterSum_insert_of_lookup delegator
                    { votes_left := info.votes_left - 1, delegate := some target }
                    (mapInsert target { votes_left := 0 + 1, delegate := none }
                      v.allowed_voters)
                    info hld
                  simp [hl, h2, h3, hlt]
                  simp at hs1 hs2
                  omega
            · simp [hl, h2, h3]
  | revoke voter caller =>
      simp only [voteStep, enrollWeight]
      unfold Vote.remove_allowed_voter
      by_cases h1 : caller ≠ v.creator
      · simp [h1]
      · by_cases h2 : (!v.is_vote_open) = true
        · simp [h1, h2]
        · cases hl : mapLookup voter v.allowed_voters with
          | none =>
              rw [mapRemove_lookup_none voter v.allowed_voters hl]
              simp [h1, h2, hl]
          | some old =>
              have hs := rosterSum_remove_of_lookup voter v.allowed_voters old hl
              simp [h1, h2, hl]
              omega

/-! ### State shapes of the registry methods -/

theorem Voting.create_vote_state_cases (s : Voting) (t : String) (o : List String)
    (b : Bool) (a : List Pubkey) :
    (s.create_vote t o b a).2 = s ∨
    ∃ nv : Vote, (s.create_vote t o b a).2 =
      { votes := mapInsert s.current_id nv s.votes, current_id := s.current_id + 1 } := by
  unfold Voting.create_vote
  cases a with
  | nil => left; rfl
  | cons c rest => right; exact ⟨_, rfl⟩

theorem Voting.vote_state_cases (s : Voting) (vid : Nat) (a : List Pubkey) (i : Nat) :
    (s.vote vid a i).2 = s ∨
    ∃ v voter rest, a = voter :: rest ∧ mapLookup vid s.votes = some v ∧
      (s.vote vid a i).2 = { s with votes := mapInsert vid (v.vote voter i).2 s.votes } := by
  unfold Voting.vote
  cases hl : mapLookup vid s.votes with
  | none => left; rfl
  | some v =>
      cases a with
      | nil => left; rfl
      | cons voter rest => right; exact ⟨v, voter, rest, rfl, rfl, rfl⟩

theorem Voting.close_vote_state_cases (s : Voting) (vid : Nat) (a : List Pubkey) :
    (s.close_vote vid a).2 = s ∨
    ∃ v, mapLookup vid s.votes = some v ∧
      (s.close_vote vid a).2 =
        { s with votes := mapInsert vid { v with is_vote_open := false } s.votes } := by
  unfold Voting.close_vote
  cases a with
  | nil => left; rfl
  | cons caller rest =>
      cases hl : mapLookup vid s.votes with
      | none => left; rfl
      | some v =>
          by_cases hc : v.creator ≠ caller
          · left; simp [hc]
          · right; exact ⟨v, rfl, by simp [hc]⟩

theorem Voting.add_allowed_voter_state_cases (s : Voting) (vid : Nat) (voter : Pubkey)
    (a : List Pubkey) :
    (s.add_allowed_voter vid voter a).2 = s ∨
    ∃ v caller rest, a = caller :: rest ∧ mapLookup vid s.votes = some v ∧
      (s.add_allowed_voter vid voter a).2 =
        { s with votes := mapInsert vid (v.add_allowed_voter voter caller).2 s.votes } := by
  unfold Voting.add_allowed_voter
  cases a with
  | nil => left; rfl
  | cons caller rest =>
      cases hl : mapLookup vid s.votes with
      | none => left; rfl
      | some v => right; exact ⟨v, caller, rest, rfl, rfl, rfl⟩

theorem Voting.remove_allowed_voter_state_cases (s : Voting) (vid : Nat) (voter : Pubkey)
    (a : List Pubkey) :
    (s.remove_allowed_voter vid voter a).2 = s ∨
    ∃ v caller rest, a = caller :: rest ∧ mapLookup vid s.votes = some v ∧
      (s.remove_allowed_voter vid voter a).2 =
        { s with votes := mapInsert vid (v.remove_allowed_voter voter caller).2 s.votes } := by
  unfold Voting.remove_allowed_voter
  cases a with
  | nil => left; rfl
  | cons caller rest =>
      cases hl : mapLookup vid s.votes with
      | none => left; rfl
      | some v => right; exact ⟨v, caller, rest, rfl, rfl, rfl⟩

theorem Voting.delegate_vote_state_cases (s : Voting) (vid : Nat) (target : Pubkey)
    (a : List Pubkey) :
    (s.delegate_vote vid target a).2 = s ∨
    ∃ v delegator rest, a = delegator :: rest ∧ mapLookup vid s.votes = some v ∧
      (s.delegate_vote vid target a).2 =
        { s with votes := mapInsert vid (v.delegate_vote target delegator).2 s.votes } := by
  unfold Voting.delegate_vote
  cases hl : mapLookup vid s.votes with
  | none => left; rfl
  | some v =>
      cases a with
      | nil => left; rfl
      | cons delegator rest => right; exact ⟨v, delegator, rest, rfl, rfl, rfl⟩

/-! ### Registry invariants preserved by every step -/

theorem keysBounded_insert {s : Voting} {k : Nat} {v : Vote}
    (hb : keysBounded s) (hk : k < s.current_id) :
    keysBounded { s with votes := mapInsert k v s.votes } := by
  intro p hp
  rcases mem_mapInsert hp with h | h
  · rw [h]; exact hk
  · exact hb p h

theorem keysBounded_update {s : Voting} {k : Nat} {v : Vote} (v' : Vote)
    (hb : keysBounded s) (hl : mapLookup k s.votes = some v) :
    keysBounded { s with votes := mapInsert k v' s.votes } :=
  keysBounded_insert hb (hb _ (mapLookup_mem hl))

theorem keysBounded_step (s : Voting) (op : RegOp) (hb : keysBounded s) :
    keysBounded (regStep s op) := by
  cases op with
  | create t o b a =>
      rcases Voting.create_vote_state_cases s t o b a with h | ⟨nv, h⟩ <;>
        simp only [regStep] <;> rw [h]
      · exact hb
      · intro p hp
        rcases mem_mapInsert hp with h' | h'
        · rw [h']; exact Nat.lt_succ_self _
        · exact Nat.lt_succ_of_lt (hb p h')
  | castV vid a i =>
      rcases Voting.vote_state_cases s vid a i with h | ⟨v, voter, rest, _, hl, h⟩ <;>
        simp only [regStep] <;> rw [h]
      · exact hb
      · exact keysBounded_update _ hb hl
  | close vid a =>
      rcases Voting.close_vote_state_cases s vid a with h | ⟨v, hl, h⟩ <;>
        simp only [regStep] <;> rw [h]
      · exact hb
      · exact keysBounded_update _ hb hl
  | enroll vid voter a =>
      rcases Voting.add_allowed_voter_state_cases s vid voter a with h | ⟨v, c, rest, _, hl, h⟩ <;>
        simp only [regStep] <;> rw [h]
      · exact hb
      · exact keysBounded_update _ hb hl
  | revoke vid voter a =>
      rcases Voting.remove_allowed_voter_state_cases s vid voter a with h | ⟨v, c, rest, _, hl, h⟩ <;>
        simp only [regStep] <;> rw [h]
      · exact hb
      · exact keysBounded_update _ hb hl
  | deleg vid t a =>
      rcases Voting.delegate_vote_state_cases s vid t a with h | ⟨v, d, rest, _, hl, h⟩ <;>
        simp only [regStep] <;> rw [h]
      · exact hb
      · exact keysBounded_update _ hb hl

theorem keysBounded_run (s : Voting) (ops : List RegOp) (hb : keysBounded s) :
    keysBounded (regRun s ops) := by
  induction ops generalizing s with
  | nil => exact hb
  | cons op ops ih => exact ih _ (keysBounded_step s op hb)

theorem ClosedBallot_insert_other {vts : List (Nat × Vote)} {cid vid k : Nat}
    {v' vc : Vote} (hv : mapLookup vid vts = some vc) (ho : vc.is_vote_open = false)
    (hne : k ≠ vid) :
    ClosedBallot { votes := mapInsert k v' vts, current_id := cid } vid :=
  ⟨vc, by
    show mapLookup vid (mapInsert k v' vts) = some vc
    rw [mapLookup_insert_ne _ _ _ _ hne]
    exact hv, ho⟩

theorem ClosedBallot_insert_closed {vts : List (Nat × Vote)} {cid vid : Nat} {v' : Vote}
    (h : v'.is_vote_open = false) :
    ClosedBallot { votes := mapInsert vid v' vts, current_id := cid } vid :=
  ⟨v', mapLookup_insert_self _ _ _, h⟩

theorem ClosedBallot_step (s : Voting) (vid : Nat) (op : RegOp)
    (hb : keysBounded s) (hc : ClosedBallot s vid) :
    ClosedBallot (regStep s op) vid := by
  obtain ⟨vc, hvc, hoc⟩ := hc
  have hvid : vid < s.current_id := hb _ (mapLookup_mem hvc)
  cases op with
  | create t o b a =>
      rcases Voting.create_vote_state_cases s t o b a with h | ⟨nv, h⟩ <;>
        simp only [regStep] <;> rw [h]
      · exact ⟨vc, hvc, hoc⟩
      · have hne : s.current_id ≠ vid := fun he => by omega
        exact ClosedBallot_insert_other hvc hoc hne
  | castV vid' a i =>
      rcases Voting.vote_state_cases s vid' a i with h | ⟨v, voter, rest, _, hl, h⟩ <;>
        simp only [regStep] <;> rw [h]
      · exact ⟨vc, hvc, hoc⟩
      · by_cases he : vid' = vid
        · subst he
          rw [hvc] at hl
          injection hl with hl'
          subst hl'
          rw [Vote.vote_closed vc voter i hoc]
          exact ClosedBallot_insert_closed hoc
        · exact ClosedBallot_insert_other hvc hoc he
  | close vid' a =>
      rcases Voting.close_vote_state_cases s vid' a with h | ⟨v, hl, h⟩ <;>
        simp only [regStep] <;> rw [h]
      · exact ⟨vc, hvc, hoc⟩
      · by_cases he : vid' = vid
        · subst he
          exact ClosedBallot_insert_closed rfl
        · exact ClosedBallot_insert_other hvc hoc he
  | enroll vid' voter a =>
      rcases Voting.add_allowed_voter_state_cases s vid' voter a with
        h | ⟨v, caller, rest, _, hl, h⟩ <;>
        simp only [regStep] <;> rw [h]
      · exact ⟨vc, hvc, hoc⟩
      · by_cases he : vid' = vid
        · subst he
          rw [hvc] at hl
          injection hl with hl'
          subst hl'
          rw [Vote.add_allowed_voter_closed vc voter caller hoc]
          exact ClosedBallot_insert_closed hoc
        · exact ClosedBallot_insert_other hvc hoc he
  | revoke vid' voter a =>
      rcases Voting.remove_allowed_voter_state_cases s vid' voter a with
        h | ⟨v, caller, rest, _, hl, h⟩ <;>
        simp only [regStep] <;> rw [h]
      · exact ⟨vc, hvc, hoc⟩
      · by_cases he : vid' = vid
        · subst he
          rw [hvc] at hl
          injection hl with hl'
          subst hl'
          rw [Vote.remove_allowed_voter_closed vc voter caller hoc]
          exact ClosedBallot_insert_closed hoc
        · exact ClosedBallot_insert_other hvc hoc he
  | deleg vid' t a =>
      rcases Voting.delegate_vote_state_cases s vid' t a with
        h | ⟨v, d, rest, _, hl, h⟩ <;>
        simp only [regStep] <;> rw [h]
      · exact ⟨vc, hvc, hoc⟩
      · by_cases he : vid' = vid
        · subst he
          rw [hvc] at hl
          injection hl with hl'
          subst hl'
          rw [Vote.delegate_vote_closed vc t d hoc]
          exact ClosedBallot_insert_closed hoc
        · exact ClosedBallot_insert_other hvc hoc he

theorem ClosedBallot_run (s : Voting) (vid : Nat) (ops : List RegOp)
    (hb : keysBounded s) (hc : ClosedBallot s vid) :
    ClosedBallot (regRun s ops) vid := by
  induction ops generalizing s with
  | nil => exact hc
  | cons op ops ih =>
      exact ih _ (keysBounded_step s op hb) (ClosedBallot_step s vid op hb hc)

/-- On a registry whose ballot `vid` is closed, the four mutating calls on
`vid` all fail. -/
theorem closed_calls_fail (s : Voting) (vid : Nat) (hc : ClosedBallot s vid) :
    (∀ a i, (s.vote vid a i).1 = .error .invalidArgument) ∧
    (∀ voter a, (s.add_allowed_voter vid voter a).1 = .error .invalidArgument) ∧
    (∀ voter a, (s.remove_allowed_voter vid voter a).1 = .error .invalidArgument) ∧
    (∀ t a, (s.delegate_vote vid t a).1 = .error .invalidArgument) := by
  obtain ⟨v, hv, ho⟩ := hc
  refine ⟨fun a i => ?_, fun voter a => ?_, fun voter a => ?_, fun t a => ?_⟩
  · unfold Voting.vote
    rw [hv]
    cases a with
    | nil => rfl
    | cons voter rest => simp [Vote.vote_closed v voter i ho]
  · unfold Voting.add_allowed_voter
    cases a with
    | nil => rfl
    | cons caller rest =>
        rw [hv]
        simp [Vote.add_allowed_voter_closed v voter caller ho]
  · unfold Voting.remove_allowed_voter
    cases a with
    | nil => rfl
    | cons caller rest =>
        rw [hv]
        simp [Vote.remove_allowed_voter_closed v voter caller ho]
  · unfold Voting.delegate_vote
    rw [hv]
    cases a with
    | nil => rfl
    | cons d rest => simp [Vote.delegate_vote_closed v t d ho]

/-- Folding the per-step measure bound over a trace. -/
theorem voteRun_measure (ops : List VoteOp) (p : Vote × Nat) :
    rosterSum (voteRun p ops).1.allowed_voters + (voteRun p ops).2 ≤
      rosterSum p.1.allowed_voters + p.2 + enrollCount ops := by
  induction ops generalizing p with
  | nil => simp [voteRun, enrollCount]
  | cons op ops ih =>
      have h1 := voteStep_measure p op
      have h2 := ih (voteStep p op)
      rw [enrollCount_cons]
      simp only [voteRun, List.foldl] at h2 ⊢
      omega

theorem mem_lookup_isSome {α β : Type} [DecidableEq α] {m : List (α × β)} {p : α × β}
    (h : p ∈ m) : (mapLookup p.1 m).isSome = true := by
  induction m with
  | nil => simp at h
  | cons hd tl ih =>
    obtain ⟨k₀, v₀⟩ := hd
    rcases List.mem_cons.mp h with h | h
    · subst h
      simp [mapLookup]
    · by_cases h0 : k₀ = p.1
      · simp [mapLookup, h0]
      · simp [mapLookup, h0]
        exact ih h

theorem keysComplete_keysBounded {s : Voting} (hk : keysComplete s) :
    keysBounded s :=
  fun p hp => (hk p.1).mp (mem_lookup_isSome hp)

theorem keysComplete_update {s : Voting} {k : Nat} {v : Vote} (v' : Vote)
    (hk : keysComplete s) (hl : mapLookup k s.votes = some v) :
    keysComplete { s with votes := mapInsert k v' s.votes } := by
  intro k'
  show (mapLookup k' (mapInsert k v' s.votes)).isSome = true ↔ k' < s.current_id
  rw [mapLookup_isSome_insert]
  by_cases he : k = k'
  · subst he
    have hsome : (mapLookup k s.votes).isSome = true := by rw [hl]; rfl
    have hlt : k < s.current_id := (hk k).mp hsome
    simp [hlt]
  · simp [he, hk k']

theorem keysComplete_step (s : Voting) (op : RegOp) (hk : keysComplete s) :
    keysComplete (regStep s op) := by
  cases op with
  | create t o b a =>
      rcases Voting.create_vote_state_cases s t o b a with h | ⟨nv, h⟩ <;>
        simp only [regStep] <;> rw [h]
      · exact hk
      · intro k'
        show (mapLookup k' (mapInsert s.current_id nv s.votes)).isSome = true ↔
          k' < s.current_id + 1
        rw [mapLookup_isSome_insert]
        by_cases he : s.current_id = k'
        · subst he
          simp
        · have hiff := hk k'
          have hd : (decide (s.current_id = k') : Bool) = false := by simp [he]
          rw [hd, Bool.false_or, hiff]
          omega
  | castV vid a i =>
      rcases Voting.vote_state_cases s vid a i with h | ⟨v, voter, rest, _, hl, h⟩ <;>
        simp only [regStep] <;> rw [h]
      · exact hk
      · exact keysComplete_update _ hk hl
  | close vid a =>
      rcases Voting.close_vote_state_cases s vid a with h | ⟨v, hl, h⟩ <;>
        simp only [regStep] <;> rw [h]
      · exact hk
      · exact keysComplete_update _ hk hl
  | enroll vid voter a =>
      rcases Voting.add_allowed_voter_state_cases s vid voter a with
        h | ⟨v, c, rest, _, hl, h⟩ <;>
        simp only [regStep] <;> rw [h]
      · exact hk
      · exact keysComplete_update _ hk hl
  | revoke vid voter a =>
      rcases Voting.remove_allowed_voter_state_cases s vid voter a with
        h | ⟨v, c, rest, _, hl, h⟩ <;>
        simp only [regStep] <;> rw [h]
      · exact hk
      · exact keysComplete_update _ hk hl
  | deleg vid t a =>
      rcases Voting.delegate_vote_state_cases s vid t a with
        h | ⟨v, d, rest, _, hl, h⟩ <;>
        simp only [regStep] <;> rw [h]
      · exact hk
      · exact keysComplete_update _ hk hl

theorem keysComplete_run (s : Voting) (ops : List RegOp) (hk : keysComplete s) :
    keysComplete (regRun s ops) := by
  induction ops generalizing s with
  | nil => exact hk
  | cons op ops ih => exact ih _ (keysComplete_step s op hk)

theorem keysComplete_initial : keysComplete initialVoting := by
  intro k
  simp [initialVoting, mapLookup]

/-- A bounded registry never holds its own counter as a key. -/
theorem lookup_current_id_none {s : Voting} (hb : keysBounded s) :
    mapLookup s.current_id s.votes = none := by
  cases hl : mapLookup s.current_id s.votes with
  | none => rfl
  | some v =>
      have := hb _ (mapLookup_mem hl)
      omega

/-- C1: Allowance conservation — starting from a ballot with an empty roster,
after any sequence of enroll / cast / delegate / revoke operations, the sum of
remaining allowance over the roster plus the number of votes cast never
exceeds the number of enrollment events in the sequence; moreover a
revocation step never increases the roster sum and casts no vote. -/
theorem allowance_conservation (v0 : Vote) (ops : List VoteOp)
    (h0 : v0.allowed_voters = []) :
    rosterSum (voteRun (v0, 0) ops).1.allowed_voters + (voteRun (v0, 0) ops).2 ≤
      enrollCount ops ∧
    ∀ (v : Vote) (n : Nat) (voter caller : Pubkey),
      rosterSum (voteStep (v, n) (.revoke voter caller)).1.allowed_voters ≤
        rosterSum v.allowed_voters ∧
      (voteStep (v, n) (.revoke voter caller)).2 = n := by
  constructor
  · have hm := voteRun_measure ops (v0, 0)
    rw [h0] at hm
    simpa [rosterSum] using hm
  · intro v n voter caller
    refine ⟨?_, rfl⟩
    have hm := voteStep_measure (v, n) (.revoke voter caller)
    have h2 : (voteStep (v, n) (VoteOp.revoke voter caller)).2 = n := rfl
    rw [h2] at hm
    simp only [enrollWeight] at hm
    omega

theorem allowance_conservation_witness :
    rosterSum (voteRun (sampleBallot, 0)
        [VoteOp.enroll 1 0, VoteOp.cast 1 0, VoteOp.deleg 2 1]).1.allowed_voters +
      (voteRun (sampleBallot, 0)
        [VoteOp.enroll 1 0, VoteOp.cast 1 0, VoteOp.deleg 2 1]).2 ≤
      enrollCount [VoteOp.enroll 1 0, VoteOp.cast 1 0, VoteOp.deleg 2 1] :=
  (allowance_conservation sampleBallot
    [VoteOp.enroll 1 0, VoteOp.cast 1 0, VoteOp.deleg 2 1] rfl).1

/-- A state-shape lemma for a successful `close_vote`. -/
theorem close_vote_ok_state (s : Voting) (vid : Nat) (acc : List Pubkey)
    (hok : (s.close_vote vid acc).1 = .ok ()) :
    ∃ v, mapLookup vid s.votes = some v ∧
      (s.close_vote vid acc).2 =
        { s with votes := mapInsert vid { v with is_vote_open := false } s.votes } := by
  unfold Voting.close_vote at hok ⊢
  cases acc with
  | nil => simp at hok
  | cons caller rest =>
      cases hl : mapLookup vid s.votes with
      | none => rw [hl] at hok; simp at hok
      | some v =>
          rw [hl] at hok
          by_cases hc : v.creator ≠ caller
          · simp [hc] at hok
          · exact ⟨v, rfl, by simp [hc]⟩

/-- C2: One-way open state — once `close_vote` succeeds on a ballot id of a
registry with in-range keys, then after any further sequence of registry
operations that ballot still exists and is still closed, and `vote`,
`add_allowed_voter`, `remove_allowed_voter` and `delegate_vote` on that id
fail for all inputs. -/
theorem one_way_closed (s : Voting) (vid : Nat) (acc : List Pubkey)
    (hb : keysBounded s) (hok : (s.close_vote vid acc).1 = .ok ())
    (ops : List RegOp) :
    ClosedBallot (regRun (s.close_vote vid acc).2 ops) vid ∧
    (∀ a i, ((regRun (s.close_vote vid acc).2 ops).vote vid a i).1 =
      .error .invalidArgument) ∧
    (∀ voter a, ((regRun (s.close_vote vid acc).2 ops).add_allowed_voter vid voter a).1 =
      .error .invalidArgument) ∧
    (∀ voter a, ((regRun (s.close_vote vid acc).2 ops).remove_allowed_voter vid voter a).1 =
      .error .invalidArgument) ∧
    (∀ t a, ((regRun (s.close_vote vid acc).2 ops).delegate_vote vid t a).1 =
      .error .invalidArgument) := by
  obtain ⟨v, hl, hs1⟩ := close_vote_ok_state s vid acc hok
  have hc1 : ClosedBallot (s.close_vote vid acc).2 vid := by
    rw [hs1]; exact ClosedBallot_insert_closed rfl
  have hb1 : keysBounded (s.close_vote vid acc).2 := by
    rw [hs1]; exact keysBounded_update _ hb hl
  have hc2 := ClosedBallot_run _ vid ops hb1 hc1
  have hf := closed_calls_fail _ vid hc2
  exact ⟨hc2, hf.1, hf.2.1, hf.2.2.1, hf.2.2.2⟩

theorem one_way_closed_witness :
    ((regRun ((⟨[(0, sampleBallot)], 1⟩ : Voting).close_vote 0 [0]).2
        [RegOp.create "x" ["y"] false [5]]).vote 0 [1] 0).1 =
      .error .invalidArgument :=
  (one_way_closed ⟨[(0, sampleBallot)], 1⟩ 0 [0] (by decide) rfl
    [RegOp.create "x" ["y"] false [5]]).2.1 [1] 0

/-- C3 counterexample: two different failure conditions — an empty identity
list on `create_vote` (the spec's `NoCaller`) and an unknown ballot id on
`vote` (the spec's `BallotNotFound`) — produce the very same error value
`InvalidArgument`, so the reason codes are not pairwise distinct. -/
theorem error_codes_collide :
    (initialVoting.create_vote "Test Vote" ["Option 1"] false []).1 =
      .error .invalidArgument ∧
    (initialVoting.vote 999 [7] 0).1 = .error .invalidArgument :=
  ⟨rfl, rfl⟩

/-- C3 amended: every failure of every registry entry point is reported with
the one reason code `InvalidArgument` (the embedding is total, so no
operation panics). -/
theorem all_errors_invalid_argument :
    (∀ (s : Voting) t o b a e, (Voting.create_vote s t o b a).1 = .error e →
      e = .invalidArgument) ∧
    (∀ (s : Voting) vid a i e, (Voting.vote s vid a i).1 = .error e →
      e = .invalidArgument) ∧
    (∀ (s : Voting) vid a e, (Voting.close_vote s vid a).1 = .error e →
      e = .invalidArgument) ∧
    (∀ (s : Voting) vid a e, Voting.get_results s vid a = .error e →
      e = .invalidArgument) ∧
    (∀ (s : Voting) vid voter a e, (Voting.add_allowed_voter s vid voter a).1 = .error e →
      e = .invalidArgument) ∧
    (∀ (s : Voting) vid voter a e, (Voting.remove_allowed_voter s vid voter a).1 = .error e →
      e = .invalidArgument) ∧
    (∀ (s : Voting) vid voter e, Voting.is_voter_allowed s vid voter = .error e →
      e = .invalidArgument) ∧
    (∀ (s : Voting) vid t a e, (Voting.delegate_vote s vid t a).1 = .error e →
      e = .invalidArgument) ∧
    (∀ (s : Voting) vid e, Voting.get_options s vid = .error e →
      e = .invalidArgument) := by
  refine ⟨?_, ?_, ?_, ?_, ?_, ?_, ?_, ?_, ?_⟩
  · intro s t o b a e h
    have h2 := congrArg Prod.fst (Voting.create_vote_error_eq s t o b a e h)
    rw [h] at h2
    injection h2
  · intro s vid a i e h
    have h2 := congrArg Prod.fst (Voting.vote_error_eq s vid a i e h)
    rw [h] at h2
    injection h2
  · intro s vid a e h
    have h2 := congrArg Prod.fst (Voting.close_vote_error_eq s vid a e h)
    rw [h] at h2
    injection h2
  · intro s vid a e h
    have h2 := Voting.get_results_error_eq s vid a e h
    rw [h] at h2
    injection h2
  · intro s vid voter a e h
    have h2 := congrArg Prod.fst (Voting.add_allowed_voter_error_eq s vid voter a e h)
    rw [h] at h2
    injection h2
  · intro s vid voter a e h
    have h2 := congrArg Prod.fst (Voting.remove_allowed_voter_error_eq s vid voter a e h)
    rw [h] at h2
    injection h2
  · intro s vid voter e h
    have h2 := Voting.is_voter_allowed_error_eq s vid voter e h
    rw [h] at h2
    injection h2
  · intro s vid t a e h
    have h2 := congrArg Prod.fst (Voting.delegate_vote_error_eq s vid t a e h)
    rw [h] at h2
    injection h2
  · intro s vid e h
    have h2 := Voting.get_options_error_eq s vid e h
    rw [h] at h2
    injection h2

theorem all_errors_invalid_argument_witness :
    ProgramError.invalidArgument = ProgramError.invalidArgument :=
  all_errors_invalid_argument.1 initialVoting "Test Vote" ["Option 1"] false []
    .invalidArgument rfl

/-- C10: Error atomicity — whenever a mutating registry operation returns an
error, the registry state it returns is exactly the one it was given
(the read-only operations `get_results`, `is_voter_allowed` and `get_options`
take the state by reference and return no state at all). -/
theorem error_atomicity :
    (∀ (s : Voting) t o b a e, (Voting.create_vote s t o b a).1 = .error e →
      (Voting.create_vote s t o b a).2 = s) ∧
    (∀ (s : Voting) vid a i e, (Voting.vote s vid a i).1 = .error e →
      (Voting.vote s vid a i).2 = s) ∧
    (∀ (s : Voting) vid a e, (Voting.close_vote s vid a).1 = .error e →
      (Voting.close_vote s vid a).2 = s) ∧
    (∀ (s : Voting) vid voter a e, (Voting.add_allowed_voter s vid voter a).1 = .error e →
      (Voting.add_allowed_voter s vid voter a).2 = s) ∧
    (∀ (s : Voting) vid voter a e, (Voting.remove_allowed_voter s vid voter a).1 = .error e →
      (Voting.remove_allowed_voter s vid voter a).2 = s) ∧
    (∀ (s : Voting) vid t a e, (Voting.delegate_vote s vid t a).1 = .error e →
      (Voting.delegate_vote s vid t a).2 = s) := by
  refine ⟨?_, ?_, ?_, ?_, ?_, ?_⟩
  · intro s t o b a e h
    exact congrArg Prod.snd (Voting.create_vote_error_eq s t o b a e h)
  · intro s vid a i e h
    exact congrArg Prod.snd (Voting.vote_error_eq s vid a i e h)
  · intro s vid a e h
    exact congrArg Prod.snd (Voting.close_vote_error_eq s vid a e h)
  · intro s vid voter a e h
    exact congrArg Prod.snd (Voting.add_allowed_voter_error_eq s vid voter a e h)
  · intro s vid voter a e h
    exact congrArg Prod.snd (Voting.remove_allowed_voter_error_eq s vid voter a e h)
  · intro s vid t a e h
    exact congrArg Prod.snd (Voting.delegate_vote_error_eq s vid t a e h)

theorem error_atomicity_witness :
    (Voting.vote initialVoting 5 [2] 0).2 = initialVoting :=
  error_atomicity.2.1 initialVoting 5 [2] 0 .invalidArgument rfl

/-- C5: Access control — for every caller other than the creator,
`add_allowed_voter` and `remove_allowed_voter` on the ballot and `close_vote`
on the registry fail and leave the state unchanged, in every ballot state. -/
theorem creator_only_access (v : Vote) (voter caller : Pubkey)
    (hne : caller ≠ v.creator) :
    v.add_allowed_voter voter caller = (.error .invalidArgument, v) ∧
    v.remove_allowed_voter voter caller = (.error .invalidArgument, v) ∧
    ∀ (s : Voting) (vid : Nat) (rest : List Pubkey),
      mapLookup vid s.votes = some v →
      s.close_vote vid (caller :: rest) = (.error .invalidArgument, s) := by
  refine ⟨?_, ?_, ?_⟩
  · unfold Vote.add_allowed_voter
    simp [hne]
  · unfold Vote.remove_allowed_voter
    simp [hne]
  · intro s vid rest hl
    unfold Voting.close_vote
    rw [hl]
    have h2 : v.creator ≠ caller := fun h => hne h.symm
    simp [h2]

theorem creator_only_access_witness :
    sampleBallot.add_allowed_voter 2 1 = (.error .invalidArgument, sampleBallot) :=
  (creator_only_access sampleBallot 2 1 (by decide)).1

/-- C6: `vote` postcondition — the four failure conditions each fail without
mutation, and on success the tally entry for the positionally selected option
text is incremented by exactly one (created at 0 first if absent, all other
tally keys untouched), the voter's allowance drops by exactly one, and the
option list and open flag are untouched; two in-range indices carrying the
same option text produce identical results (same tally key), while the key is
the option text itself. -/
theorem vote_spec (v : Vote) (voter : Pubkey) (idx : Nat) :
    (v.is_voter_allowed voter = false →
      v.vote voter idx = (.error .invalidArgument, v)) ∧
    (v.is_voter_allowed voter = true → v.is_vote_open = false →
      v.vote voter idx = (.error .invalidArgument, v)) ∧
    (∀ info, mapLookup voter v.allowed_voters = some info →
      v.is_vote_open = true → info.votes_left = 0 →
      v.vote voter idx = (.error .invalidArgument, v)) ∧
    (∀ info, mapLookup voter v.allowed_voters = some info →
      v.is_vote_open = true → 1 ≤ info.votes_left → v.options.length ≤ idx →
      v.vote voter idx = (.error .invalidArgument, v)) ∧
    (∀ info, mapLookup voter v.allowed_voters = some info →
      v.is_vote_open = true → 1 ≤ info.votes_left → idx < v.options.length →
      (v.vote voter idx).1 = .ok () ∧
      mapLookup (v.options.getD idx "") (v.vote voter idx).2.votes =
        some ((mapLookup (v.options.getD idx "") v.votes).getD 0 + 1) ∧
      (∀ key, key ≠ v.options.getD idx "" →
        mapLookup key (v.vote voter idx).2.votes = mapLookup key v.votes) ∧
      mapLookup voter (v.vote voter idx).2.allowed_voters =
        some { votes_left := info.votes_left - 1, delegate := info.delegate } ∧
      (v.vote voter idx).2.options = v.options ∧
      (v.vote voter idx).2.is_vote_open = v.is_vote_open) ∧
    (∀ j, idx < v.options.length → j < v.options.length →
      v.options.getD idx "" = v.options.getD j "" →
      v.vote voter idx = v.vote voter j) := by
  refine ⟨?_, ?_, ?_, ?_, ?_, ?_⟩
  · intro hna
    unfold Vote.vote
    simp [hna]
  · intro ha hc
    unfold Vote.vote
    cases hl : mapLookup voter v.allowed_voters with
    | none => simp [ha, hl]
    | some info => simp [ha, hc, hl]
  · intro info hl ho hz
    unfold Vote.vote
    have ha : v.is_voter_allowed voter = true := by
      unfold Vote.is_voter_allowed mapContains
      rw [hl]; rfl
    simp [ha, ho, hl, hz]
  · intro info hl ho h1 hlen
    unfold Vote.vote
    have ha : v.is_voter_allowed voter = true := by
      unfold Vote.is_voter_allowed mapContains
      rw [hl]; rfl
    have hz : ¬ info.votes_left ≤ 0 := by omega
    simp [ha, ho, hl, hz, hlen]
  · intro info hl ho h1 hlen
    have ha : v.is_voter_allowed voter = true := by
      unfold Vote.is_voter_allowed mapContains
      rw [hl]; rfl
    have hz : ¬ info.votes_left ≤ 0 := by omega
    have hlen' : ¬ v.options.length ≤ idx := by omega
    have hcall : v.vote voter idx =
        (.ok (), { v with
          votes := mapInsert (v.options.getD idx "")
            ((mapLookup (v.options.getD idx "") v.votes).getD 0 + 1) v.votes,
          allowed_voters := mapInsert voter
            { info with votes_left := info.votes_left - 1 } v.allowed_voters }) := by
      unfold Vote.vote
      simp [ha, ho, hl, hz, hlen']
    rw [hcall]
    refine ⟨rfl, ?_, ?_, ?_, rfl, rfl⟩
    · exact mapLookup_insert_self _ _ _
    · intro key hk
      exact mapLookup_insert_ne _ _ _ _ (fun h => hk h.symm)
    · exact mapLookup_insert_self _ _ _
  · intro j hidx hj heq
    unfold Vote.vote
    by_cases ha : (!v.is_voter_allowed voter) = true
    · simp [ha]
    · cases hl : mapLookup voter v.allowed_voters with
      | none => simp [ha, hl]
      | some info =>
          by_cases hc : (!v.is_vote_open) = true
          · simp [ha, hc]
          · by_cases hz : info.votes_left ≤ 0
            · simp [ha, hc, hl, hz]
            · have h4 : ¬ v.options.length ≤ idx := by omega
              have h5 : ¬ v.options.length ≤ j := by omega
              have heq2 : v.options[idx]?.getD "" = v.options[j]?.getD "" := by
                simpa [List.getD_eq_getElem?_getD] using heq
              simp [ha, hc, hl, hz, h4, h5, heq2]

theorem vote_spec_witness :
    (enrolledBallot.vote 1 0).1 = .ok () :=
  ((vote_spec enrolledBallot 1 0).2.2.2.2.1
    { votes_left := 1, delegate := none } rfl rfl (by decide) (by decide)).1

/-- C7: `create_vote` — an empty identity list fails and leaves the registry
unchanged; otherwise the first identity becomes the creator, the ballot is
created open with empty roster and tally under the id `current_id`, the
counter advances by one and the assigned id is returned; consequently, in
every state reachable from the empty registry the key set is exactly the ids
below the counter (so the counter is one plus the greatest key ever
inserted), and a bounded registry never reuses an id. -/
theorem create_vote_spec :
    (∀ (s : Voting) t o b, s.create_vote t o b [] = (.error .invalidArgument, s)) ∧
    (∀ (s : Voting) (t : String) (o : List String) (b : Bool) (c : Pubkey)
      (rest : List Pubkey),
      s.create_vote t o b (c :: rest) =
        (.ok s.current_id,
          { votes := mapInsert s.current_id
              { id := s.current_id, title := t, options := o, votes := [],
                creator := c, allowed_voters := [], is_close_vote_results := b,
                is_vote_open := true } s.votes,
            current_id := s.current_id + 1 })) ∧
    (∀ (ops : List RegOp) (k : Nat),
      (mapLookup k (regRun initialVoting ops).votes).isSome = true ↔
        k < (regRun initialVoting ops).current_id) ∧
    (∀ (s : Voting) t o b a i, keysBounded s →
      (s.create_vote t o b a).1 = .ok i →
      i = s.current_id ∧ mapLookup i s.votes = none) := by
  refine ⟨fun s t o b => rfl, fun s t o b c rest => rfl, ?_, ?_⟩
  · intro ops k
    exact keysComplete_run initialVoting ops keysComplete_initial k
  · intro s t o b a i hb hok
    unfold Voting.create_vote at hok
    cases a with
    | nil => simp at hok
    | cons c rest =>
        simp at hok
        subst hok
        exact ⟨rfl, lookup_current_id_none hb⟩

theorem create_vote_spec_witness :
    1 = (regRun initialVoting [RegOp.create "Test Vote" ["Option 1"] false [4]]).current_id ∧
    mapLookup 1 (regRun initialVoting [RegOp.create "Test Vote" ["Option 1"] false [4]]).votes =
      none :=
  create_vote_spec.2.2.2
    (regRun initialVoting [RegOp.create "Test Vote" ["Option 1"] false [4]])
    "s" ["x"] true [9] 1 (by decide) rfl

/-- C8: `get_results` gating — given the ballot exists and a caller is
supplied, the call fails exactly when results are restricted and the caller
is not enrolled; in every other case it returns the tally unchanged, and the
outcome does not depend on the ballot's open flag. -/
theorem get_results_spec (s : Voting) (vid : Nat) (caller : Pubkey)
    (rest : List Pubkey) (v : Vote) (h : mapLookup vid s.votes = some v) :
    (s.get_results vid (caller :: rest) = .error .invalidArgument ↔
      v.is_close_vote_results = true ∧ v.is_voter_allowed caller = false) ∧
    (v.is_close_vote_results = false ∨ v.is_voter_allowed caller = true →
      s.get_results vid (caller :: rest) = .ok v.votes) ∧
    (∀ b : Bool,
      Voting.get_results
        { s with votes := mapInsert vid { v with is_vote_open := b } s.votes }
        vid (caller :: rest) = s.get_results vid (caller :: rest)) := by
  refine ⟨?_, ?_, ?_⟩
  · unfold Voting.get_results
    rw [h]
    by_cases hr : v.is_close_vote_results = true
    · by_cases hv : v.is_voter_allowed caller = false
      · simp [hr, hv]
      · simp [hr, hv]
    · simp [hr]
  · intro hcase
    unfold Voting.get_results
    rw [h]
    rcases hcase with hr | hv
    · simp [hr]
    · by_cases hr : v.is_close_vote_results = true
      · simp [hr, hv]
      · simp [hr]
  · intro b
    unfold Voting.get_results
    have h2 : mapLookup vid (mapInsert vid { v with is_vote_open := b } s.votes) =
        some { v with is_vote_open := b } := mapLookup_insert_self _ _ _
    dsimp only
    rw [h, h2]
    rfl

theorem get_results_spec_witness :
    (⟨[(0, sampleBallot)], 1⟩ : Voting).get_results 0 [9] = .ok sampleBallot.votes :=
  (get_results_spec ⟨[(0, sampleBallot)], 1⟩ 0 9 [] sampleBallot rfl).2.1 (Or.inl rfl)

/-- C4 counterexample: on an open ballot where voter `1` is enrolled with one
vote, self-delegation (`delegate == delegator == 1`) succeeds, yet the
delegate's entry ends with `votes_left = 0` — its allowance did not increase
by one (it was `1` before the call), because the delegator's stale entry is
written back last. -/
theorem delegate_self_cex :
    (enrolledBallot.delegate_vote 1 1).1 = .ok () ∧
    mapLookup 1 enrolledBallot.allowed_voters =
      some { votes_left := 1, delegate := none } ∧
    mapLookup 1 (enrolledBallot.delegate_vote 1 1).2.allowed_voters =
      some { votes_left := 0, delegate := some 1 } ∧
    mapLookup 1 (enrolledBallot.delegate_vote 1 1).2.allowed_voters ≠
      some { votes_left := 1 + 1, delegate := some 1 } := by
  refine ⟨rfl, rfl, rfl, by decide⟩

/-- C4 amended: for an open ballot, an enrolled delegator with at least one
vote left and a delegate *different from the delegator*, `delegate_vote`
succeeds, the delegator's allowance drops by exactly one and its delegate
pointer is set, and the delegate's roster entry (created as
`{votes_left := 0, delegate := none}` if previously absent) has its allowance
increased by exactly one.  (For `delegate = delegator` see the self-delegation
theorem: the transferred unit is lost.) -/
theorem delegate_vote_spec (v : Vote) (target delegator : Pubkey) (info : VoterInfo)
    (hopen : v.is_vote_open = true)
    (hd : mapLookup delegator v.allowed_voters = some info)
    (hv : 1 ≤ info.votes_left) (hne : target ≠ delegator) :
    (v.delegate_vote target delegator).1 = .ok () ∧
    mapLookup delegator (v.delegate_vote target delegator).2.allowed_voters =
      some { votes_left := info.votes_left - 1, delegate := some target } ∧
    mapLookup target (v.delegate_vote target delegator).2.allowed_voters =
      some { votes_left := ((mapLookup target v.allowed_voters).getD
              { votes_left := 0, delegate := none }).votes_left + 1,
             delegate := ((mapLookup target v.allowed_voters).getD
              { votes_left := 0, delegate := none }).delegate } := by
  have hpos : info.votes_left > 0 := hv
  have hcall : v.delegate_vote target delegator =
      (.ok (),
        { v with
          allowed_voters :=
            mapInsert delegator
              { votes_left := info.votes_left - 1, delegate := some target }
              (mapInsert target
                { votes_left := ((mapLookup target v.allowed_voters).getD
                      { votes_left := 0, delegate := none }).votes_left + 1,
                  delegate := ((mapLookup target v.allowed_voters).getD
                      { votes_left := 0, delegate := none }).delegate }
                v.allowed_voters) }) := by
    unfold Vote.delegate_vote
    rw [hd]
    simp [hopen, hpos]
  rw [hcall]
  refine ⟨rfl, mapLookup_insert_self _ _ _, ?_⟩
  show mapLookup target (mapInsert delegator _ (mapInsert target _ v.allowed_voters)) = _
  rw [mapLookup_insert_ne _ _ _ _ (fun h => hne h.symm)]
  exact mapLookup_insert_self _ _ _

theorem delegate_vote_spec_witness :
    (enrolledBallot.delegate_vote 2 1).1 = .ok () :=
  (delegate_vote_spec enrolledBallot 2 1 { votes_left := 1, delegate := none }
    rfl rfl (by decide) (by decide)).1

/-- C9: Self-delegation — on an open ballot, an enrolled voter with at least
one vote left who delegates to themselves succeeds, ends with their allowance
decreased by one and their delegate pointer aimed at themselves, and the
roster's total allowance drops by exactly one: the transferred unit is lost. -/
theorem self_delegation_loses_unit (v : Vote) (voter : Pubkey) (info : VoterInfo)
    (hopen : v.is_vote_open = true)
    (hd : mapLookup voter v.allowed_voters = some info)
    (hv : 1 ≤ info.votes_left) :
    (v.delegate_vote voter voter).1 = .ok () ∧
    mapLookup voter (v.delegate_vote voter voter).2.allowed_voters =
      some { votes_left := info.votes_left - 1, delegate := some voter } ∧
    rosterSum (v.delegate_vote voter voter).2.allowed_voters + 1 =
      rosterSum v.allowed_voters := by
  have hpos : info.votes_left > 0 := hv
  have hcall : v.delegate_vote voter voter =
      (.ok (),
        { v with
          allowed_voters :=
            mapInsert voter
              { votes_left := info.votes_left - 1, delegate := some voter }
              (mapInsert voter
                { votes_left := info.votes_left + 1, delegate := info.delegate }
                v.allowed_voters) }) := by
    unfold Vote.delegate_vote
    rw [hd]
    simp [hopen, hpos]
  rw [hcall]
  refine ⟨rfl, mapLookup_insert_self _ _ _, ?_⟩
  have hs1 := rosterSum_insert_of_lookup voter
    { votes_left := info.votes_left + 1, delegate := info.delegate }
    v.allowed_voters info hd
  have hs2 := rosterSum_insert_of_lookup voter
    { votes_left := info.votes_left - 1, delegate := some voter }
    (mapInsert voter { votes_left := info.votes_left + 1, delegate := info.delegate }
      v.allowed_voters)
    { votes_left := info.votes_left + 1, delegate := info.delegate }
    (mapLookup_insert_self _ _ _)
  simp only at hs1 hs2
  show rosterSum (mapInsert voter _ (mapInsert voter _ v.allowed_voters)) + 1 = _
  omega

theorem self_delegation_witness :
    rosterSum (enrolledBallot.delegate_vote 1 1).2.allowed_voters + 1 =
      rosterSum enrolledBallot.allowed_voters :=
  (self_delegation_loses_unit enrolledBallot 1 { votes_left := 1, delegate := none }
    rfl rfl (by decide)).2.2
